import Mathlib

/-!
Verification of the sql-ranger partition checker (`src/sqlranger/checker.py`)
against its specification.

The checker consumes a parsed SQL expression tree (produced by the external
sqlglot parser) and reports partition-filter violations.  The embedding below
mirrors the Python source:

* `SqlExpr` / `SqlArgs` model the fragment of the sqlglot expression tree the
  checker inspects: column references (`exp.Column`, carrying an optional
  table qualifier), string literals (`exp.Literal`), function calls
  (`exp.Func` / `exp.Anonymous`, with an argument list), the comparison nodes
  `exp.EQ/LT/LTE/GT/GTE/Between`, and boolean connectives.  `SqlExpr.walk`
  models sqlglot's depth-first `walk`/`find_all` traversal.
* `TableRef` models an `exp.Table` node (name plus optional alias);
  `SelectScope` models one SELECT scope as the checker sees it: the table
  nodes visible from `parent_select.find_all(exp.Table)` and the WHERE
  condition trees from `find_all(exp.Where)`.
* Dates are represented by their day ordinal (`Nat`), computed with the
  standard civil-calendar day-count algorithm; only differences and
  comparisons of ordinals are used, exactly matching `datetime` subtraction
  and comparison of midnight datetimes.
-/

namespace SqlRanger

/-- ASCII lower-casing of one character (models Python `str.lower()` on the
ASCII identifiers and table names the checker compares). -/
def lowerChar (c : Char) : Char :=
  if 65 ≤ c.toNat && c.toNat ≤ 90 then Char.ofNat (c.toNat + 32) else c

/-- Lower-case a string character by character (Python `str.lower()`). -/
def lowerStr (s : String) : String :=
  String.mk (s.data.map lowerChar)

/-- Split a character list on a separator, like Python `str.split(sep)`:
always returns at least one (possibly empty) part. -/
def splitOnChar (sep : Char) : List Char → List (List Char)
  | [] => [[]]
  | c :: cs =>
    let rest := splitOnChar sep cs
    if c == sep then [] :: rest
    else
      match rest with
      | [] => [[c]]
      | p :: ps => (c :: p) :: ps

/-- `PartitionColumn.get_nonqualified_table_name`: the part of the table name
after the last `.` (Python `table_name.split(".")[-1]`). -/
def getNonqualifiedTableName (tableName : String) : String :=
  String.mk ((splitOnChar '.' tableName.data).getLastD [])

/-- ASCII digit test. -/
def isDigitChar (c : Char) : Bool :=
  48 ≤ c.toNat && c.toNat ≤ 57

/-- Decimal value of a digit string (caller checks all characters are digits). -/
def digitsToNat (cs : List Char) : Nat :=
  cs.foldl (fun acc c => acc * 10 + (c.toNat - 48)) 0

/-- Gregorian leap-year test. -/
def isLeapYear (y : Nat) : Bool :=
  (y % 4 == 0 && y % 100 != 0) || y % 400 == 0

/-- Number of days in a month of the proleptic Gregorian calendar. -/
def daysInMonth (y m : Nat) : Nat :=
  if m == 2 then (if isLeapYear y then 29 else 28)
  else if m == 4 || m == 6 || m == 9 || m == 11 then 30 else 31

/-- Day ordinal of a civil date (standard days-from-civil algorithm, valid for
year ≥ 1; all intermediate quantities stay non-negative).  Two dates compare
and subtract the same way their `datetime` values do in the Python source. -/
def daysFromCivil (y m d : Nat) : Nat :=
  let y' := if m ≤ 2 then y - 1 else y
  let era := y' / 400
  let yoe := y' % 400
  let mp := (m + 9) % 12
  let doy := (153 * mp + 2) / 5 + d - 1
  let doe := yoe * 365 + yoe / 4 - yoe / 100 + doy
  era * 146097 + doe

/-- `PartitionChecker._parse_date_string`: parse a `YYYY-MM-DD` string into a
day ordinal.  Modelled on Python `datetime.strptime(date_str, "%Y-%m-%d")`
(standard library, external to the checker): three dash-separated digit
fields, year of 1–4 digits with year ≥ 1, month and day of 1–2 digits forming
a real calendar date; anything else raises and is mapped to `None`. -/
def parseDateString (s : String) : Option Nat :=
  match splitOnChar '-' s.data with
  | [ys, ms, ds] =>
    if !ys.isEmpty && ys.all isDigitChar && ys.length ≤ 4
        && !ms.isEmpty && ms.all isDigitChar && ms.length ≤ 2
        && !ds.isEmpty && ds.all isDigitChar && ds.length ≤ 2 then
      let y := digitsToNat ys
      let m := digitsToNat ms
      let d := digitsToNat ds
      if 1 ≤ y && 1 ≤ m && m ≤ 12 && 1 ≤ d && d ≤ daysInMonth y m then
        some (daysFromCivil y m d)
      else none
    else none
  | _ => none

mutual
/-- The fragment of the sqlglot expression tree inspected by the checker. -/
inductive SqlExpr where
  | column (name : String) (table : Option String)
  | lit (value : String)
  | func (name : String) (args : SqlArgs)
  | eq (l r : SqlExpr)
  | lt (l r : SqlExpr)
  | lte (l r : SqlExpr)
  | gt (l r : SqlExpr)
  | gte (l r : SqlExpr)
  | between (arg low high : SqlExpr)
  | and (l r : SqlExpr)
  | or (l r : SqlExpr)
  deriving DecidableEq

/-- Argument list of a function-call node. -/
inductive SqlArgs where
  | nil
  | cons (head : SqlExpr) (tail : SqlArgs)
  deriving DecidableEq
end

mutual
/-- Depth-first traversal listing a node and all of its descendants
(sqlglot `Expression.walk` / the domain of `find_all`). -/
def SqlExpr.walk : SqlExpr → List SqlExpr
  | e@(.column _ _) => [e]
  | e@(.lit _) => [e]
  | e@(.func _ args) => e :: args.walkAll
  | e@(.eq l r) => e :: (l.walk ++ r.walk)
  | e@(.lt l r) => e :: (l.walk ++ r.walk)
  | e@(.lte l r) => e :: (l.walk ++ r.walk)
  | e@(.gt l r) => e :: (l.walk ++ r.walk)
  | e@(.gte l r) => e :: (l.walk ++ r.walk)
  | e@(.between a lo hi) => e :: (a.walk ++ lo.walk ++ hi.walk)
  | e@(.and l r) => e :: (l.walk ++ r.walk)
  | e@(.or l r) => e :: (l.walk ++ r.walk)

/-- Traversal of every expression in an argument list. -/
def SqlArgs.walkAll : SqlArgs → List SqlExpr
  | .nil => []
  | .cons h t => h.walk ++ t.walkAll
end

/-- The comparison node kinds collected by
`PartitionChecker._extract_partition_conditions`
(`exp.EQ, exp.LT, exp.LTE, exp.GT, exp.GTE, exp.Between`). -/
def isComparison : SqlExpr → Bool
  | .eq _ _ => true
  | .lt _ _ => true
  | .lte _ _ => true
  | .gt _ _ => true
  | .gte _ _ => true
  | .between _ _ _ => true
  | _ => false

/-- Whether an expression subtree contains any column reference
(`any(isinstance(n, exp.Column) for n in expr.walk())`). -/
def SqlExpr.hasColumn (e : SqlExpr) : Bool :=
  e.walk.any fun n =>
    match n with
    | .column _ _ => true
    | _ => false

/-- An `exp.Table` node: table name and optional alias. -/
structure TableRef where
  name : String
  tblAlias : Option String
  deriving DecidableEq

/-- Key under which a table node is registered in the scope's alias map:
Python `(table.alias or table.name).lower()` (an empty alias is falsy). -/
def tableKey (t : TableRef) : String :=
  lowerStr (match t.tblAlias with
    | some a => if a.isEmpty then t.name else a
    | none => t.name)

/-- Lookup in the alias map built by `_get_expr_column_table`'s dict
comprehension; a later table with the same key overwrites an earlier one. -/
def lookupTableByKey (tables : List TableRef) (key : String) : Option TableRef :=
  (tables.filter fun t => tableKey t == key).getLast?

/-- `PartitionChecker._get_expr_column_table`: resolve a column's table
qualifier through the enclosing scope's alias map (`None`/empty qualifier
resolves to nothing). -/
def getExprColumnTable (scopeTables : List TableRef) (colTable : Option String) :
    Option TableRef :=
  match colTable with
  | none => none
  | some ct => if ct.isEmpty then none else lookupTableByKey scopeTables (lowerStr ct)

/-- The per-column test inside `_references_column_of_table`'s loop: the
column counts when its name matches the partition column and it is either
unqualified (assumed to belong to the table being checked) or resolves to a
table with the target name. -/
def columnCountsForTable (scopeTables : List TableRef) (nm : String)
    (tbl : Option String) (tableName columnName : String) : Bool :=
  if !nm.isEmpty && lowerStr nm == lowerStr columnName then
    if (tbl.getD "").isEmpty then true
    else
      match getExprColumnTable scopeTables tbl with
      | some t => lowerStr t.name == lowerStr tableName
      | none => false
  else false

/-- `PartitionChecker._references_column_of_table`. -/
def referencesColumnOfTable (scopeTables : List TableRef) (condition : SqlExpr)
    (tableName columnName : String) : Bool :=
  condition.walk.any fun n =>
    match n with
    | .column nm tbl => columnCountsForTable scopeTables nm tbl tableName columnName
    | _ => false

/-- `PartitionChecker._extract_partition_conditions`: the comparison/BETWEEN
nodes inside a WHERE clause that reference the partition column of the table
under test. -/
def extractPartitionConditions (scopeTables : List TableRef) (whereCond : SqlExpr)
    (tableName columnName : String) : List SqlExpr :=
  whereCond.walk.filter fun n =>
    isComparison n && referencesColumnOfTable scopeTables n tableName columnName

/-- Whether any column in a function's arguments has the given name
(table qualifiers are not consulted), as in `_has_function_on_column`'s
inner loop over `node.find_all(exp.Column)`. -/
def SqlArgs.anyColumnNamed (args : SqlArgs) (columnName : String) : Bool :=
  args.walkAll.any fun n =>
    match n with
    | .column nm _ => !nm.isEmpty && lowerStr nm == lowerStr columnName
    | _ => false

/-- `PartitionChecker._has_function_on_column`. -/
def hasFunctionOnColumn (condition : SqlExpr) (columnName : String) : Bool :=
  condition.walk.any fun n =>
    match n with
    | .func _ args => args.anyColumnNamed columnName
    | _ => false

/-- `isinstance(condition, exp.Between)`. -/
def isBetweenNode : SqlExpr → Bool
  | .between _ _ _ => true
  | _ => false

/-- `isinstance(condition, exp.EQ)`. -/
def isEqNode : SqlExpr → Bool
  | .eq _ _ => true
  | _ => false

/-- `isinstance(condition, (exp.GTE, exp.GT))`: a lower bound. -/
def isLowerBoundNode : SqlExpr → Bool
  | .gte _ _ => true
  | .gt _ _ => true
  | _ => false

/-- `isinstance(condition, (exp.LTE, exp.LT))`: an upper bound. -/
def isUpperBoundNode : SqlExpr → Bool
  | .lte _ _ => true
  | .lt _ _ => true
  | _ => false

/-- `PartitionChecker._has_finite_range`: the loop over the conditions sets
four flags by the `isinstance` tests above (the condition kinds are disjoint,
so the flag values equal these `any` queries). -/
def hasFiniteRange (conditions : List SqlExpr) : Bool :=
  let hasBetween := conditions.any isBetweenNode
  let hasEquals := conditions.any isEqNode
  let hasLowerBound := conditions.any isLowerBoundNode
  let hasUpperBound := conditions.any isUpperBoundNode
  hasBetween || hasEquals || (hasLowerBound && hasUpperBound)

/-- `PartitionChecker._extract_date_value`: a date ordinal from a string
literal, or from a `date(...)` / `from_iso8601_date(...)` call whose first
argument is a string literal. -/
def extractDateValue : Option SqlExpr → Option Nat
  | none => none
  | some e =>
    match e with
    | .lit v => parseDateString v
    | .func nm args =>
      if lowerStr nm == "date" || lowerStr nm == "from_iso8601_date" then
        match args with
        | .cons (.lit v) _ => parseDateString v
        | _ => none
      else none
    | _ => none

/-- The side selection inside `_extract_date_from_comparison`: take the date
from whichever operand contains no column reference; if both or neither side
contains a column, no date is extracted. -/
def extractDateFromSides (l r : SqlExpr) : Option Nat :=
  if l.hasColumn && !r.hasColumn then extractDateValue (some r)
  else if r.hasColumn && !l.hasColumn then extractDateValue (some l)
  else none

/-- `PartitionChecker._extract_date_from_comparison` (called only on the
comparison nodes `EQ/LT/LTE/GT/GTE`). -/
def extractDateFromComparison : SqlExpr → Option Nat
  | .eq l r => extractDateFromSides l r
  | .lt l r => extractDateFromSides l r
  | .lte l r => extractDateFromSides l r
  | .gt l r => extractDateFromSides l r
  | .gte l r => extractDateFromSides l r
  | _ => none

/-- The loop of `PartitionChecker._estimate_date_range`, threading the
`start_date` / `end_date` accumulators:
* a BETWEEN whose low and high both parse sets both bounds and breaks;
* an `=` whose date side parses returns 1 immediately;
* a `>=`/`>` keeps the smaller of the candidate and the current start;
* a `<=`/`<` keeps the larger of the candidate and the current end;
after the loop, `(end − start).days + 1` when both bounds were found. -/
def estimateDateRangeAux : List SqlExpr → Option Nat → Option Nat → Option Int
  | [], startDate, endDate =>
    match startDate, endDate with
    | some s, some e => some ((e : Int) - (s : Int) + 1)
    | _, _ => none
  | c :: rest, startDate, endDate =>
    match c with
    | .between _ low high =>
      match extractDateValue (some low), extractDateValue (some high) with
      | some l, some h => some ((h : Int) - (l : Int) + 1)
      | _, _ => estimateDateRangeAux rest startDate endDate
    | .eq l r =>
      match extractDateFromSides l r with
      | some _ => some 1
      | none => estimateDateRangeAux rest startDate endDate
    | .gte l r =>
      match extractDateFromSides l r with
      | some d =>
        estimateDateRangeAux rest
          (some (match startDate with
                 | none => d
                 | some s => if d < s then d else s)) endDate
      | none => estimateDateRangeAux rest startDate endDate
    | .gt l r =>
      match extractDateFromSides l r with
      | some d =>
        estimateDateRangeAux rest
          (some (match startDate with
                 | none => d
                 | some s => if d < s then d else s)) endDate
      | none => estimateDateRangeAux rest startDate endDate
    | .lte l r =>
      match extractDateFromSides l r with
      | some d =>
        estimateDateRangeAux rest startDate
          (some (match endDate with
                 | none => d
                 | some e => if e < d then d else e))
      | none => estimateDateRangeAux rest startDate endDate
    | .lt l r =>
      match extractDateFromSides l r with
      | some d =>
        estimateDateRangeAux rest startDate
          (some (match endDate with
                 | none => d
                 | some e => if e < d then d else e))
      | none => estimateDateRangeAux rest startDate endDate
    | _ => estimateDateRangeAux rest startDate endDate

/-- `PartitionChecker._estimate_date_range`. -/
def estimateDateRange (conditions : List SqlExpr) : Option Int :=
  estimateDateRangeAux conditions none none

/-- A partition rule: `PartitionColumn` or its `DatePartitionColumn`
subclass (which adds a documentary date pattern and an optional
`max_date_range_days` bound). -/
inductive PartitionConfig where
  | plain (tableName columnName : String)
  | dateCol (tableName columnName datePattern : String)
      (maxDateRangeDays : Option Int)
  deriving DecidableEq

def PartitionConfig.tableName : PartitionConfig → String
  | .plain t _ => t
  | .dateCol t _ _ _ => t

def PartitionConfig.columnName : PartitionConfig → String
  | .plain _ c => c
  | .dateCol _ c _ _ => c

/-- The dynamic test `isinstance(cfg, DatePartitionColumn) and
cfg.max_date_range_days is not None` collapsed to its payload. -/
def PartitionConfig.maxRangeDays : PartitionConfig → Option Int
  | .plain _ _ => none
  | .dateCol _ _ _ m => m

def PartitionConfig.shortTableName (cfg : PartitionConfig) : String :=
  getNonqualifiedTableName cfg.tableName

inductive PartitionCheckViolation where
  | MISSING_DAY_FILTER
  | DAY_FILTER_WITH_FUNCTION
  | NO_FINITE_RANGE
  | EXCESSIVE_DATE_RANGE
  | QUERY_INVALID_SYNTAX
  deriving DecidableEq

structure PartitionCheckResult where
  violation : PartitionCheckViolation
  message : String
  tableName : Option String := none
  estimatedDays : Option Int := none
  deriving DecidableEq

/-- One SELECT scope as the per-site check sees it: the table nodes of
`parent_select.find_all(exp.Table)` and the condition trees of the WHERE
clauses found by `find_all(exp.Where)`. -/
structure SelectScope where
  tables : List TableRef
  whereClauses : List SqlExpr
  deriving DecidableEq

/-- All qualifying partition conditions of a scope: the concatenation over
its WHERE clauses of `_extract_partition_conditions`. -/
def scopePartitionConditions (scope : SelectScope) (tableName columnName : String) :
    List SqlExpr :=
  (scope.whereClauses.map fun w =>
    extractPartitionConditions scope.tables w tableName columnName).flatten

/-- `PartitionChecker._check_table_partition_in_specific_sql`: the per-site
rule pipeline (WHERE presence, column-condition presence, function wrapping,
finite range, optional range size), first failing rule wins. -/
def checkTablePartitionInSpecificSql (scope : SelectScope)
    (cfg : PartitionConfig) : Option PartitionCheckResult :=
  let columnName := cfg.columnName
  let tableName := cfg.shortTableName
  if scope.whereClauses.isEmpty then
    some { violation := .MISSING_DAY_FILTER,
           message := "Table '" ++ tableName ++
             "' is used without a WHERE clause containing a '" ++
             columnName ++ "' filter",
           tableName := some tableName }
  else
    let partitionConditions := scopePartitionConditions scope tableName columnName
    if partitionConditions.isEmpty then
      some { violation := .MISSING_DAY_FILTER,
             message := "Table '" ++ tableName ++ "' is used without a '" ++
               columnName ++ "' column filter in WHERE clause",
             tableName := some tableName }
    else if partitionConditions.any (fun c => hasFunctionOnColumn c columnName) then
      some { violation := .DAY_FILTER_WITH_FUNCTION,
             message := "Table '" ++ tableName ++ "' uses '" ++ columnName ++
               "' column with a function, which disables partitioning. Use raw '" ++
               columnName ++ "' column in comparisons.",
             tableName := some tableName }
    else if !(hasFiniteRange partitionConditions) then
      some { violation := .NO_FINITE_RANGE,
             message := "Table '" ++ tableName ++
               "' does not have a finite date range. Use BETWEEN or combination of >= and <= operators.",
             tableName := some tableName }
    else
      match cfg.maxRangeDays with
      | none => none
      | some maxDays =>
        match estimateDateRange partitionConditions with
        | none => none
        | some estimatedDays =>
          if estimatedDays > maxDays then
            some { violation := .EXCESSIVE_DATE_RANGE,
                   message := "Table '" ++ tableName ++
                     "' has an excessive date range of approximately " ++
                     toString estimatedDays ++ " days (max: " ++
                     toString maxDays ++ ")",
                   tableName := some tableName,
                   estimatedDays := some estimatedDays }
          else none

/-- The error message of `PartitionChecker.__init__` for a duplicate
non-qualified table name. -/
def duplicateConfigMessage (key existingTableName newTableName : String) : String :=
  "Duplicate partition configuration for non-qualified table name '" ++ key ++
    "': '" ++ existingTableName ++ "' and '" ++ newTableName ++
    "'. Use distinct non-qualified names or adjust the configuration."

/-- Lookup in the registry dict built by `__init__` (keys are unique by
construction, so first match suffices). -/
def lookupConfig (configs : List (String × PartitionConfig)) (key : String) :
    Option PartitionConfig :=
  (configs.find? fun p => p.1 == key).map Prod.snd

/-- The construction loop of `PartitionChecker.__init__`: insert each rule
under its lower-cased short name, failing on the first duplicate key. -/
def buildPartitionConfigs (acc : List (String × PartitionConfig)) :
    List PartitionConfig → Except String (List (String × PartitionConfig))
  | [] => .ok acc
  | pc :: rest =>
    let key := lowerStr pc.shortTableName
    match lookupConfig acc key with
    | some existing => .error (duplicateConfigMessage key existing.tableName pc.tableName)
    | none => buildPartitionConfigs (acc ++ [(key, pc)]) rest

/-- `PartitionChecker.__init__`: `ValueError` is modelled as the `.error`
branch carrying the exception message. -/
def mkPartitionChecker (partitionedTables : List PartitionConfig) :
    Except String (List (String × PartitionConfig)) :=
  buildPartitionConfigs [] partitionedTables

/-- A successfully parsed query, abstracted (the tree plumbing of
`find_all(exp.From)` / `parent_select` belongs to the external sqlglot
collaborator) to its usage-sites: each FROM-clause occurrence of a table,
paired with its enclosing SELECT scope, in the order
`_check_table_partition_hierarchically` visits them. -/
structure ParsedQuery where
  usageSites : List (String × SelectScope)
  deriving DecidableEq

/-- `PartitionChecker.check_query`: the external `sqlglot.parse_one` is an
explicit argument (`.error` models the raised parser exception).  On parse
failure a single `QUERY_INVALID_SYNTAX` result is returned; otherwise every
usage-site of a registered table is checked and the per-site results are
concatenated.  The embedding is a total function: no exception escapes. -/
def checkQuery (parseOne : String → Except String ParsedQuery)
    (configs : List (String × PartitionConfig)) (sql : String) :
    List PartitionCheckResult :=
  match parseOne sql with
  | .error e =>
    [{ violation := .QUERY_INVALID_SYNTAX,
       message := "Failed to parse SQL query: " ++ e,
       tableName := none,
       estimatedDays := none }]
  | .ok parsed =>
    (parsed.usageSites.map fun site =>
      match lookupConfig configs (lowerStr site.1) with
      | some cfg =>
        match checkTablePartitionInSpecificSql site.2 cfg with
        | some r => [r]
        | none => []
      | none => []).flatten

/-! Classification predicates used to state the estimation properties
(mirroring the branch structure of `_estimate_date_range`). -/

/-- A BETWEEN condition whose low and high bounds both parse as dates: the
only BETWEEN shape on which the estimation loop breaks. -/
def betweenBothParse : SqlExpr → Bool
  | .between _ lo hi =>
    (extractDateValue (some lo)).isSome && (extractDateValue (some hi)).isSome
  | _ => false

/-- An `=` condition from which a date can be extracted: the only `=` shape
on which the estimation loop returns early. -/
def eqWithDate : SqlExpr → Bool
  | .eq l r => (extractDateFromSides l r).isSome
  | _ => false

/-- The lower-bound date candidates of a condition list: the extracted dates
of its `>=`/`>` conditions. -/
def lowerCandidates (conds : List SqlExpr) : List Nat :=
  conds.filterMap fun c =>
    match c with
    | .gte l r => extractDateFromSides l r
    | .gt l r => extractDateFromSides l r
    | _ => none

/-- The upper-bound date candidates of a condition list: the extracted dates
of its `<=`/`<` conditions. -/
def upperCandidates (conds : List SqlExpr) : List Nat :=
  conds.filterMap fun c =>
    match c with
    | .lte l r => extractDateFromSides l r
    | .lt l r => extractDateFromSides l r
    | _ => none

/-- The final `(end_date - start_date).days + 1` step of
`_estimate_date_range`, applied to an optional lower and upper bound. -/
def combineBounds : Option Nat → Option Nat → Option Int
  | some lo, some hi => some ((hi : Int) - (lo : Int) + 1)
  | _, _ => none

/-- Modelled from the spec: the inequality accumulation of §4.5 as the spec
words it — "accumulate the tightest lower bound seen (max of candidates) and
tightest upper bound (min of candidates)".  Identical to
`estimateDateRangeAux` except that `>=`/`>` keep the larger candidate and
`<=`/`<` keep the smaller one.  Used only to compare the spec's wording with
the source's `_estimate_date_range`. -/
def estimateDateRangeTightestAux : List SqlExpr → Option Nat → Option Nat → Option Int
  | [], startDate, endDate =>
    match startDate, endDate with
    | some s, some e => some ((e : Int) - (s : Int) + 1)
    | _, _ => none
  | c :: rest, startDate, endDate =>
    match c with
    | .between _ low high =>
      match extractDateValue (some low), extractDateValue (some high) with
      | some l, some h => some ((h : Int) - (l : Int) + 1)
      | _, _ => estimateDateRangeTightestAux rest startDate endDate
    | .eq l r =>
      match extractDateFromSides l r with
      | some _ => some 1
      | none => estimateDateRangeTightestAux rest startDate endDate
    | .gte l r =>
      match extractDateFromSides l r with
      | some d =>
        estimateDateRangeTightestAux rest
          (some (match startDate with
                 | none => d
                 | some s => if s < d then d else s)) endDate
      | none => estimateDateRangeTightestAux rest startDate endDate
    | .gt l r =>
      match extractDateFromSides l r with
      | some d =>
        estimateDateRangeTightestAux rest
          (some (match startDate with
                 | none => d
                 | some s => if s < d then d else s)) endDate
      | none => estimateDateRangeTightestAux rest startDate endDate
    | .lte l r =>
      match extractDateFromSides l r with
      | some d =>
        estimateDateRangeTightestAux rest startDate
          (some (match endDate with
                 | none => d
                 | some e => if d < e then d else e))
      | none => estimateDateRangeTightestAux rest startDate endDate
    | .lt l r =>
      match extractDateFromSides l r with
      | some d =>
        estimateDateRangeTightestAux rest startDate
          (some (match endDate with
                 | none => d
                 | some e => if d < e then d else e))
      | none => estimateDateRangeTightestAux rest startDate endDate
    | _ => estimateDateRangeTightestAux rest startDate endDate

/-- Modelled from the spec: §4.5's estimator with tightest-bound
accumulation. -/
def estimateDateRangeTightest (conditions : List SqlExpr) : Option Int :=
  estimateDateRangeTightestAux conditions none none

/-! Concrete scenarios used by the claims below. -/

/-- The rule registering `gridhive.fact.sales_history` on column `day`. -/
def salesHistoryRule : PartitionConfig :=
  .plain "gridhive.fact.sales_history" "day"

/-- The scope of
`SELECT * FROM sales_history a JOIN inventory b ON a.day = b.day
WHERE b.day BETWEEN '2021-09-13' AND '2021-09-26'`:
two joined tables with identically named partition columns, where only the
other table's `day` is filtered. -/
def joinOtherTableScope : SelectScope :=
  { tables := [{ name := "sales_history", tblAlias := some "a" },
               { name := "inventory", tblAlias := some "b" }],
    whereClauses := [.between (.column "day" (some "b"))
      (.lit "2021-09-13") (.lit "2021-09-26")] }

/-- The scope of
`SELECT * FROM sales_history a JOIN inventory b ON ...
WHERE a.day = extract(b.day)`: the qualifying condition filters `a.day`,
but the function call wraps the *other* table's same-named column. -/
def funcOtherTableScope : SelectScope :=
  { tables := [{ name := "sales_history", tblAlias := some "a" },
               { name := "inventory", tblAlias := some "b" }],
    whereClauses := [.eq (.column "day" (some "a"))
      (.func "extract" (.cons (.column "day" (some "b")) .nil))] }

/-- Condition list with a parseable BETWEEN preceding a single-day `=`. -/
def betweenThenEqConds : List SqlExpr :=
  [.between (.column "day" none) (.lit "2021-01-01") (.lit "2021-12-31"),
   .eq (.column "day" none) (.lit "2021-09-13")]

/-- Condition list with two lower bounds and one upper bound:
`day >= '2021-01-01' AND day >= '2021-06-01' AND day <= '2021-06-10'`. -/
def twoLowerBoundConds : List SqlExpr :=
  [.gte (.column "day" none) (.lit "2021-01-01"),
   .gte (.column "day" none) (.lit "2021-06-01"),
   .lte (.column "day" none) (.lit "2021-06-10")]

/-- One `start_date` update of the estimation loop
(`if date_val < start_date: start_date = date_val`): keep the smaller date. -/
def keepSmaller (s : Option Nat) (d : Nat) : Option Nat :=
  some (match s with
        | none => d
        | some v => if d < v then d else v)

/-- One `end_date` update of the estimation loop
(`if date_val > end_date: end_date = date_val`): keep the larger date. -/
def keepLarger (e : Option Nat) (d : Nat) : Option Nat :=
  some (match e with
        | none => d
        | some v => if v < d then d else v)

/-- Two rules whose lower-cased short names collide (`sales`). -/
def collidingRules : List PartitionConfig :=
  [.plain "fact.sales" "day", .plain "stage.sales" "day"]

/-- Two rules with distinct short names. -/
def distinctRules : List PartitionConfig :=
  [.plain "gridhive.fact.sales_history" "day",
   .plain "gridhive.fact.inventory_log" "day"]

/-! ## Theorems -/

/-- C3: for every usage-site of a registered table whose enclosing SELECT
scope has no WHERE clause, the per-site check returns `MISSING_DAY_FILTER`
with the message "used without a WHERE clause containing a '<column>'
filter"; this holds for every scope and rule, independently of any condition
classification — it is the first rule of the pipeline. -/
theorem checkSite_no_where_clause (scope : SelectScope) (cfg : PartitionConfig)
    (h : scope.whereClauses = []) :
    checkTablePartitionInSpecificSql scope cfg =
      some { violation := .MISSING_DAY_FILTER,
             message := "Table '" ++ cfg.shortTableName ++
               "' is used without a WHERE clause containing a '" ++
               cfg.columnName ++ "' filter",
             tableName := some cfg.shortTableName,
             estimatedDays := none } := by
  simp [checkTablePartitionInSpecificSql, h]

/-- Witness for C3: a query `SELECT * FROM gridhive.fact.sales_history`
with no WHERE clause. -/
theorem checkSite_no_where_clause_witness :
    checkTablePartitionInSpecificSql { tables := [], whereClauses := [] }
        salesHistoryRule =
      some { violation := .MISSING_DAY_FILTER,
             message := "Table 'sales_history' is used without a WHERE clause containing a 'day' filter",
             tableName := some "sales_history",
             estimatedDays := none } := by
  rw [checkSite_no_where_clause { tables := [], whereClauses := [] }
    salesHistoryRule rfl]
  decide

/-- C8: for every input string the parser rejects, `check_query` returns a
list containing exactly one `QUERY_INVALID_SYNTAX` result carrying the
parser's error text and no table name.  `checkQuery` is a total Lean
function, so no exception propagates. -/
theorem checkQuery_parse_failure
    (parseOne : String → Except String ParsedQuery)
    (configs : List (String × PartitionConfig)) (sql errText : String)
    (h : parseOne sql = .error errText) :
    checkQuery parseOne configs sql =
      [{ violation := .QUERY_INVALID_SYNTAX,
         message := "Failed to parse SQL query: " ++ errText,
         tableName := none,
         estimatedDays := none }] := by
  simp [checkQuery, h]

/-- Witness for C8: a parser that rejects the query string. -/
theorem checkQuery_parse_failure_witness :
    checkQuery (fun _ => .error "Invalid expression / Unexpected token")
        [(lowerStr salesHistoryRule.shortTableName, salesHistoryRule)]
        "THIS IS NOT VALID SQL !!!" =
      [{ violation := .QUERY_INVALID_SYNTAX,
         message := "Failed to parse SQL query: Invalid expression / Unexpected token",
         tableName := none,
         estimatedDays := none }] :=
  checkQuery_parse_failure (fun _ => .error "Invalid expression / Unexpected token")
    [(lowerStr salesHistoryRule.shortTableName, salesHistoryRule)]
    "THIS IS NOT VALID SQL !!!" "Invalid expression / Unexpected token" rfl

/-- C2: for every usage-site with at least one qualifying condition in which
the partition column appears as a function argument, the per-site check
returns `DAY_FILTER_WITH_FUNCTION` — for every scope and rule, regardless of
how the other conditions would classify under the finite-range or range-size
rules, because the function-wrapping rule is evaluated first. -/
theorem checkSite_function_rule_precedence (scope : SelectScope)
    (cfg : PartitionConfig)
    (hfn : ∃ c ∈ scopePartitionConditions scope cfg.shortTableName cfg.columnName,
      hasFunctionOnColumn c cfg.columnName = true) :
    checkTablePartitionInSpecificSql scope cfg =
      some { violation := .DAY_FILTER_WITH_FUNCTION,
             message := "Table '" ++ cfg.shortTableName ++ "' uses '" ++
               cfg.columnName ++
               "' column with a function, which disables partitioning. Use raw '" ++
               cfg.columnName ++ "' column in comparisons.",
             tableName := some cfg.shortTableName,
             estimatedDays := none } := by
  obtain ⟨c, hc, hfun⟩ := hfn
  have hne : scopePartitionConditions scope cfg.shortTableName cfg.columnName ≠ [] := by
    intro h
    rw [h] at hc
    exact absurd hc (List.not_mem_nil c)
  have hw : scope.whereClauses.isEmpty = false := by
    cases hwc : scope.whereClauses with
    | nil =>
      exact absurd (by simp [scopePartitionConditions, hwc]) hne
    | cons a l => rfl
  have hpc : (scopePartitionConditions scope cfg.shortTableName cfg.columnName).isEmpty
      = false := by
    cases hsc : scopePartitionConditions scope cfg.shortTableName cfg.columnName with
    | nil => exact absurd hsc hne
    | cons a l => rfl
  have hany : (scopePartitionConditions scope cfg.shortTableName cfg.columnName).any
      (fun c => hasFunctionOnColumn c cfg.columnName) = true :=
    List.any_eq_true.mpr ⟨c, hc, hfun⟩
  simp [checkTablePartitionInSpecificSql, hw, hpc, hany]

/-- Witness for C2: `WHERE EXTRACT(YEAR FROM day) = 2021` on the registered
table, modelled as the condition `extract(day) = '2021'`. -/
theorem checkSite_function_rule_precedence_witness :
    checkTablePartitionInSpecificSql
        { tables := [{ name := "sales_history", tblAlias := none }],
          whereClauses := [.eq (.func "extract" (.cons (.column "day" none) .nil))
            (.lit "2021")] }
        salesHistoryRule =
      some { violation := .DAY_FILTER_WITH_FUNCTION,
             message := "Table 'sales_history' uses 'day' column with a function, which disables partitioning. Use raw 'day' column in comparisons.",
             tableName := some "sales_history",
             estimatedDays := none } := by
  rw [checkSite_function_rule_precedence
    { tables := [{ name := "sales_history", tblAlias := none }],
      whereClauses := [.eq (.func "extract" (.cons (.column "day" none) .nil))
        (.lit "2021")] }
    salesHistoryRule
    ⟨.eq (.func "extract" (.cons (.column "day" none) .nil)) (.lit "2021"),
      by decide, by decide⟩]
  decide

/-- C4: the set of qualifying conditions classifies as a finite range exactly
when it contains a BETWEEN node, or an `=` node, or both at least one lower
bound (`>`/`>=`) and at least one upper bound (`<`/`<=`); and a usage-site
that passes the WHERE-presence, condition-presence and function-wrapping
rules but whose conditions are not a finite range returns `NO_FINITE_RANGE`. -/
theorem finite_range_classification :
    (∀ conds : List SqlExpr,
      hasFiniteRange conds = true ↔
        ((∃ c ∈ conds, isBetweenNode c = true) ∨
         (∃ c ∈ conds, isEqNode c = true) ∨
         ((∃ c ∈ conds, isLowerBoundNode c = true) ∧
          (∃ c ∈ conds, isUpperBoundNode c = true))))
    ∧ (∀ (scope : SelectScope) (cfg : PartitionConfig),
        scopePartitionConditions scope cfg.shortTableName cfg.columnName ≠ [] →
        (∀ c ∈ scopePartitionConditions scope cfg.shortTableName cfg.columnName,
          hasFunctionOnColumn c cfg.columnName = false) →
        hasFiniteRange
          (scopePartitionConditions scope cfg.shortTableName cfg.columnName) = false →
        checkTablePartitionInSpecificSql scope cfg =
          some { violation := .NO_FINITE_RANGE,
                 message := "Table '" ++ cfg.shortTableName ++
                   "' does not have a finite date range. Use BETWEEN or combination of >= and <= operators.",
                 tableName := some cfg.shortTableName,
                 estimatedDays := none }) := by
  constructor
  · intro conds
    simp [hasFiniteRange, List.any_eq_true, or_assoc]
  · intro scope cfg hne hnofn hfr
    have hw : scope.whereClauses.isEmpty = false := by
      cases hwc : scope.whereClauses with
      | nil =>
        exact absurd (by simp [scopePartitionConditions, hwc]) hne
      | cons a l => rfl
    have hpc : (scopePartitionConditions scope cfg.shortTableName cfg.columnName).isEmpty
        = false := by
      cases hsc : scopePartitionConditions scope cfg.shortTableName cfg.columnName with
      | nil => exact absurd hsc hne
      | cons a l => rfl
    have hany : (scopePartitionConditions scope cfg.shortTableName cfg.columnName).any
        (fun c => hasFunctionOnColumn c cfg.columnName) = false :=
      List.any_eq_false.mpr fun x hx => by simp [hnofn x hx]
    simp [checkTablePartitionInSpecificSql, hw, hpc, hany, hfr]

/-- Witness for C4: `WHERE day >= '2021-09-13'` alone (only a lower bound)
on the registered table yields `NO_FINITE_RANGE`. -/
theorem finite_range_classification_witness :
    checkTablePartitionInSpecificSql
        { tables := [{ name := "sales_history", tblAlias := none }],
          whereClauses := [.gte (.column "day" none) (.lit "2021-09-13")] }
        salesHistoryRule =
      some { violation := .NO_FINITE_RANGE,
             message := "Table 'sales_history' does not have a finite date range. Use BETWEEN or combination of >= and <= operators.",
             tableName := some "sales_history",
             estimatedDays := none } := by
  rw [finite_range_classification.2
    { tables := [{ name := "sales_history", tblAlias := none }],
      whereClauses := [.gte (.column "day" none) (.lit "2021-09-13")] }
    salesHistoryRule (by decide) (by decide) (by decide)]
  decide

/-- The per-column test of `_references_column_of_table`, characterized: a
column counts exactly when its name matches the partition column and it is
either unqualified (empty/absent qualifier — assumed to belong to the table
being checked) or its qualifier resolves, through the scope's alias map, to a
table with the target name. -/
theorem columnCountsForTable_iff (scopeTables : List TableRef) (nm : String)
    (tbl : Option String) (tableName columnName : String) :
    columnCountsForTable scopeTables nm tbl tableName columnName = true ↔
      (nm.isEmpty = false ∧ lowerStr nm = lowerStr columnName ∧
        ((tbl.getD "").isEmpty = true ∨
         ∃ t, getExprColumnTable scopeTables tbl = some t ∧
           lowerStr t.name = lowerStr tableName)) := by
  unfold columnCountsForTable
  cases hne : nm.isEmpty with
  | true => simp [hne]
  | false =>
    by_cases hlc : lowerStr nm = lowerStr columnName
    · cases hge : (tbl.getD "").isEmpty with
      | true => simp [hne, hlc, hge]
      | false =>
        cases hg : getExprColumnTable scopeTables tbl with
        | none => simp [hne, hlc, hge, hg]
        | some t => simp [hne, hlc, hge, hg]
    · simp [hne, hlc]

/-- C1: a comparison/BETWEEN condition counts as a condition on the partition
column of the table under test exactly when it contains a same-named column
reference that is unqualified (assumed to belong to the table being checked)
or whose qualifier resolves through the scope's alias map to a table with the
target name — a qualifier resolving to a different table, or not resolving,
never counts.  Consequently the join of two tables with identically named
partition columns where only the other table's column is filtered yields
`MISSING_DAY_FILTER` for the registered table. -/
theorem qualified_column_resolution :
    (∀ (scopeTables : List TableRef) (cond : SqlExpr) (tableName columnName : String),
      referencesColumnOfTable scopeTables cond tableName columnName = true ↔
        ∃ nm tbl, SqlExpr.column nm tbl ∈ cond.walk ∧
          nm.isEmpty = false ∧ lowerStr nm = lowerStr columnName ∧
          ((tbl.getD "").isEmpty = true ∨
           ∃ t, getExprColumnTable scopeTables tbl = some t ∧
             lowerStr t.name = lowerStr tableName))
    ∧ checkTablePartitionInSpecificSql joinOtherTableScope salesHistoryRule =
        some { violation := .MISSING_DAY_FILTER,
               message := "Table 'sales_history' is used without a 'day' column filter in WHERE clause",
               tableName := some "sales_history",
               estimatedDays := none } := by
  constructor
  · intro scopeTables cond tableName columnName
    unfold referencesColumnOfTable
    rw [List.any_eq_true]
    constructor
    · rintro ⟨n, hmem, hp⟩
      cases n with
      | column nm tbl =>
        exact ⟨nm, tbl, hmem,
          (columnCountsForTable_iff scopeTables nm tbl tableName columnName).mp hp⟩
      | lit v => simp at hp
      | func f args => simp at hp
      | eq l r => simp at hp
      | lt l r => simp at hp
      | lte l r => simp at hp
      | gt l r => simp at hp
      | gte l r => simp at hp
      | between a lo hi => simp at hp
      | and l r => simp at hp
      | or l r => simp at hp
    · rintro ⟨nm, tbl, hmem, hrest⟩
      exact ⟨.column nm tbl, hmem,
        (columnCountsForTable_iff scopeTables nm tbl tableName columnName).mpr hrest⟩
  · decide

/-- Witness for C1: `a.day` resolves through the alias `a` to
`sales_history`, so `a.day = '2021-09-13'` counts for that table. -/
theorem qualified_column_resolution_witness :
    referencesColumnOfTable [{ name := "sales_history", tblAlias := some "a" }]
      (.eq (.column "day" (some "a")) (.lit "2021-09-13")) "sales_history" "day"
      = true :=
  (qualified_column_resolution.1 [{ name := "sales_history", tblAlias := some "a" }]
      (.eq (.column "day" (some "a")) (.lit "2021-09-13")) "sales_history" "day").mpr
    ⟨"day", some "a", by decide, by decide, by decide,
      Or.inr ⟨{ name := "sales_history", tblAlias := some "a" }, by decide, by decide⟩⟩

/-- C10: the function-wrapping rule matches the partition column by name
alone — `hasFunctionOnColumn` holds exactly when some function call in the
condition has among its arguments a column with the partition column's name,
with the table qualifier `tbl` arbitrary (it is never consulted).  In the
concrete join scenario the qualifying condition `a.day = extract(b.day)`
wraps only the *other* table's same-named column, yet the usage-site is
reported as `DAY_FILTER_WITH_FUNCTION`. -/
theorem function_rule_ignores_qualifier :
    (∀ (cond : SqlExpr) (columnName : String),
      hasFunctionOnColumn cond columnName = true ↔
        ∃ fname args nm tbl, SqlExpr.func fname args ∈ cond.walk ∧
          SqlExpr.column nm tbl ∈ args.walkAll ∧
          nm.isEmpty = false ∧ lowerStr nm = lowerStr columnName)
    ∧ checkTablePartitionInSpecificSql funcOtherTableScope salesHistoryRule =
        some { violation := .DAY_FILTER_WITH_FUNCTION,
               message := "Table 'sales_history' uses 'day' column with a function, which disables partitioning. Use raw 'day' column in comparisons.",
               tableName := some "sales_history",
               estimatedDays := none } := by
  constructor
  · intro cond columnName
    unfold hasFunctionOnColumn
    rw [List.any_eq_true]
    constructor
    · rintro ⟨n, hmem, hp⟩
      cases n with
      | func fname args =>
        unfold SqlArgs.anyColumnNamed at hp
        rw [List.any_eq_true] at hp
        obtain ⟨m, hm, hq⟩ := hp
        cases m with
        | column nm tbl =>
          simp only [Bool.and_eq_true, Bool.not_eq_true', beq_iff_eq] at hq
          exact ⟨fname, args, nm, tbl, hmem, hm, hq.1, hq.2⟩
        | lit v => simp at hq
        | func f args2 => simp at hq
        | eq l r => simp at hq
        | lt l r => simp at hq
        | lte l r => simp at hq
        | gt l r => simp at hq
        | gte l r => simp at hq
        | between a lo hi => simp at hq
        | and l r => simp at hq
        | or l r => simp at hq
      | column nm tbl => simp at hp
      | lit v => simp at hp
      | eq l r => simp at hp
      | lt l r => simp at hp
      | lte l r => simp at hp
      | gt l r => simp at hp
      | gte l r => simp at hp
      | between a lo hi => simp at hp
      | and l r => simp at hp
      | or l r => simp at hp
    · rintro ⟨fname, args, nm, tbl, hmem, hm, hne, hlc⟩
      refine ⟨.func fname args, hmem, ?_⟩
      unfold SqlArgs.anyColumnNamed
      rw [List.any_eq_true]
      exact ⟨.column nm tbl, hm, by simp [hne, hlc]⟩
  · decide

/-- Witness for C10: `extract(b.day)` — the wrapped column is qualified with
the other table's alias, and still matches. -/
theorem function_rule_ignores_qualifier_witness :
    hasFunctionOnColumn
      (.eq (.column "day" (some "a"))
        (.func "extract" (.cons (.column "day" (some "b")) .nil))) "day" = true :=
  (function_rule_ignores_qualifier.1
      (.eq (.column "day" (some "a"))
        (.func "extract" (.cons (.column "day" (some "b")) .nil))) "day").mpr
    ⟨"extract", .cons (.column "day" (some "b")) .nil, "day", some "b",
      by decide, by decide, by decide, by decide⟩

/-- Estimation-loop lemma: as long as no BETWEEN with two parseable bounds
has been scanned, reaching an `=` with a parseable date returns 1, whatever
the accumulators hold and whatever follows. -/
theorem estimateDateRangeAux_eq_one (l2 : List SqlExpr) (a b : SqlExpr)
    (hd : (extractDateFromSides a b).isSome = true) :
    ∀ l1 : List SqlExpr, (∀ c ∈ l1, betweenBothParse c = false) →
    ∀ s e : Option Nat,
      estimateDateRangeAux (l1 ++ SqlExpr.eq a b :: l2) s e = some 1 := by
  intro l1
  induction l1 with
  | nil =>
    intro _ s e
    obtain ⟨d, hd'⟩ := Option.isSome_iff_exists.mp hd
    simp [estimateDateRangeAux, hd']
  | cons c l ih =>
    intro h s e
    have hc := h c (List.mem_cons_self c l)
    have hl : ∀ c' ∈ l, betweenBothParse c' = false :=
      fun c' hc' => h c' (List.mem_cons_of_mem c hc')
    rw [List.cons_append]
    cases c with
    | between arg lo hi =>
      cases hlo : extractDateValue (some lo) with
      | none =>
        simp only [estimateDateRangeAux, hlo]
        exact ih hl s e
      | some dl =>
        cases hhi : extractDateValue (some hi) with
        | none =>
          simp only [estimateDateRangeAux, hlo, hhi]
          exact ih hl s e
        | some dh =>
          simp [betweenBothParse, hlo, hhi] at hc
    | eq l' r' =>
      cases hd2 : extractDateFromSides l' r' with
      | some d => simp [estimateDateRangeAux, hd2]
      | none =>
        simp only [estimateDateRangeAux, hd2]
        exact ih hl s e
    | gte l' r' =>
      cases hd2 : extractDateFromSides l' r' with
      | some d =>
        simp only [estimateDateRangeAux, hd2]
        exact ih hl _ e
      | none =>
        simp only [estimateDateRangeAux, hd2]
        exact ih hl s e
    | gt l' r' =>
      cases hd2 : extractDateFromSides l' r' with
      | some d =>
        simp only [estimateDateRangeAux, hd2]
        exact ih hl _ e
      | none =>
        simp only [estimateDateRangeAux, hd2]
        exact ih hl s e
    | lte l' r' =>
      cases hd2 : extractDateFromSides l' r' with
      | some d =>
        simp only [estimateDateRangeAux, hd2]
        exact ih hl s _
      | none =>
        simp only [estimateDateRangeAux, hd2]
        exact ih hl s e
    | lt l' r' =>
      cases hd2 : extractDateFromSides l' r' with
      | some d =>
        simp only [estimateDateRangeAux, hd2]
        exact ih hl s _
      | none =>
        simp only [estimateDateRangeAux, hd2]
        exact ih hl s e
    | column nm tb =>
      simp only [estimateDateRangeAux]
      exact ih hl s e
    | lit v =>
      simp only [estimateDateRangeAux]
      exact ih hl s e
    | func f args =>
      simp only [estimateDateRangeAux]
      exact ih hl s e
    | and l' r' =>
      simp only [estimateDateRangeAux]
      exact ih hl s e
    | or l' r' =>
      simp only [estimateDateRangeAux]
      exact ih hl s e

/-- Estimation-loop lemma: as long as no condition has short-circuited the
scan, reaching a BETWEEN whose two bounds parse reports the inclusive span of
those bounds, whatever the accumulators hold and whatever follows. -/
theorem estimateDateRangeAux_between (l2 : List SqlExpr) (t lo hi : SqlExpr)
    (dl dh : Nat) (hlo : extractDateValue (some lo) = some dl)
    (hhi : extractDateValue (some hi) = some dh) :
    ∀ l1 : List SqlExpr,
    (∀ c ∈ l1, betweenBothParse c = false ∧ eqWithDate c = false) →
    ∀ s e : Option Nat,
      estimateDateRangeAux (l1 ++ SqlExpr.between t lo hi :: l2) s e =
        some ((dh : Int) - (dl : Int) + 1) := by
  intro l1
  induction l1 with
  | nil =>
    intro _ s e
    simp [estimateDateRangeAux, hlo, hhi]
  | cons c l ih =>
    intro h s e
    have hc := h c (List.mem_cons_self c l)
    have hl : ∀ c' ∈ l, betweenBothParse c' = false ∧ eqWithDate c' = false :=
      fun c' hc' => h c' (List.mem_cons_of_mem c hc')
    rw [List.cons_append]
    cases c with
    | between arg blo bhi =>
      cases hblo : extractDateValue (some blo) with
      | none =>
        simp only [estimateDateRangeAux, hblo]
        exact ih hl s e
      | some d1 =>
        cases hbhi : extractDateValue (some bhi) with
        | none =>
          simp only [estimateDateRangeAux, hblo, hbhi]
          exact ih hl s e
        | some d2 =>
          simp [betweenBothParse, hblo, hbhi] at hc
    | eq l' r' =>
      cases hd2 : extractDateFromSides l' r' with
      | some d =>
        simp [eqWithDate, hd2] at hc
      | none =>
        simp only [estimateDateRangeAux, hd2]
        exact ih hl s e
    | gte l' r' =>
      cases hd2 : extractDateFromSides l' r' with
      | some d =>
        simp only [estimateDateRangeAux, hd2]
        exact ih hl _ e
      | none =>
        simp only [estimateDateRangeAux, hd2]
        exact ih hl s e
    | gt l' r' =>
      cases hd2 : extractDateFromSides l' r' with
      | some d =>
        simp only [estimateDateRangeAux, hd2]
        exact ih hl _ e
      | none =>
        simp only [estimateDateRangeAux, hd2]
        exact ih hl s e
    | lte l' r' =>
      cases hd2 : extractDateFromSides l' r' with
      | some d =>
        simp only [estimateDateRangeAux, hd2]
        exact ih hl s _
      | none =>
        simp only [estimateDateRangeAux, hd2]
        exact ih hl s e
    | lt l' r' =>
      cases hd2 : extractDateFromSides l' r' with
      | some d =>
        simp only [estimateDateRangeAux, hd2]
        exact ih hl s _
      | none =>
        simp only [estimateDateRangeAux, hd2]
        exact ih hl s e
    | column nm tb =>
      simp only [estimateDateRangeAux]
      exact ih hl s e
    | lit v =>
      simp only [estimateDateRangeAux]
      exact ih hl s e
    | func f args =>
      simp only [estimateDateRangeAux]
      exact ih hl s e
    | and l' r' =>
      simp only [estimateDateRangeAux]
      exact ih hl s e
    | or l' r' =>
      simp only [estimateDateRangeAux]
      exact ih hl s e

theorem keepSmaller_some (v d : Nat) : keepSmaller (some v) d = some (min v d) := by
  show some (if d < v then d else v) = some (min v d)
  rcases Nat.lt_or_ge d v with h | h
  · rw [if_pos h, Nat.min_eq_right h.le]
  · rw [if_neg (Nat.not_lt.mpr h), Nat.min_eq_left h]

theorem keepLarger_some (v d : Nat) : keepLarger (some v) d = some (max v d) := by
  show some (if v < d then d else v) = some (max v d)
  rcases Nat.lt_or_ge v d with h | h
  · rw [if_pos h, Nat.max_eq_right h.le]
  · rw [if_neg (Nat.not_lt.mpr h), Nat.max_eq_left h]

theorem foldl_keepSmaller_some (as : List Nat) :
    ∀ v : Nat, as.foldl keepSmaller (some v) = some (as.foldl min v) := by
  induction as with
  | nil => intro v; rfl
  | cons b bs ih =>
    intro v
    rw [List.foldl_cons, keepSmaller_some, List.foldl_cons]
    exact ih (min v b)

theorem foldl_keepLarger_some (as : List Nat) :
    ∀ v : Nat, as.foldl keepLarger (some v) = some (as.foldl max v) := by
  induction as with
  | nil => intro v; rfl
  | cons b bs ih =>
    intro v
    rw [List.foldl_cons, keepLarger_some, List.foldl_cons]
    exact ih (max v b)

/-- Folding the loop's `start_date` update from an empty accumulator computes
the minimum of the candidates. -/
theorem foldl_keepSmaller_none (l : List Nat) :
    l.foldl keepSmaller none = l.min? := by
  cases l with
  | nil => rfl
  | cons a as =>
    rw [List.foldl_cons]
    show as.foldl keepSmaller (some a) = _
    rw [foldl_keepSmaller_some]
    rfl

/-- Folding the loop's `end_date` update from an empty accumulator computes
the maximum of the candidates. -/
theorem foldl_keepLarger_none (l : List Nat) :
    l.foldl keepLarger none = l.max? := by
  cases l with
  | nil => rfl
  | cons a as =>
    rw [List.foldl_cons]
    show as.foldl keepLarger (some a) = _
    rw [foldl_keepLarger_some]
    rfl

/-- On a condition list without short-circuiting conditions, the estimation
loop folds the `start_date` accumulator with `keepSmaller` over the
lower-bound candidates and the `end_date` accumulator with `keepLarger` over
the upper-bound candidates. -/
theorem estimateDateRangeAux_accumulates (conds : List SqlExpr) :
    (∀ c ∈ conds, betweenBothParse c = false ∧ eqWithDate c = false) →
    ∀ s e : Option Nat,
      estimateDateRangeAux conds s e =
        combineBounds ((lowerCandidates conds).foldl keepSmaller s)
          ((upperCandidates conds).foldl keepLarger e) := by
  induction conds with
  | nil =>
    intro _ s e
    cases s <;> cases e <;> rfl
  | cons c l ih =>
    intro h s e
    have hc := h c (List.mem_cons_self c l)
    have hl : ∀ c' ∈ l, betweenBothParse c' = false ∧ eqWithDate c' = false :=
      fun c' hc' => h c' (List.mem_cons_of_mem c hc')
    cases c with
    | between arg blo bhi =>
      cases hblo : extractDateValue (some blo) with
      | none =>
        simp only [estimateDateRangeAux, hblo, lowerCandidates, upperCandidates,
          List.filterMap_cons]
        exact ih hl s e
      | some d1 =>
        cases hbhi : extractDateValue (some bhi) with
        | none =>
          simp only [estimateDateRangeAux, hblo, hbhi, lowerCandidates,
            upperCandidates, List.filterMap_cons]
          exact ih hl s e
        | some d2 =>
          simp [betweenBothParse, hblo, hbhi] at hc
    | eq l' r' =>
      cases hd2 : extractDateFromSides l' r' with
      | some d => simp [eqWithDate, hd2] at hc
      | none =>
        simp only [estimateDateRangeAux, hd2, lowerCandidates, upperCandidates,
          List.filterMap_cons]
        exact ih hl s e
    | gte l' r' =>
      cases hd2 : extractDateFromSides l' r' with
      | some d =>
        simp only [estimateDateRangeAux, hd2, lowerCandidates, upperCandidates,
          List.filterMap_cons, List.foldl_cons]
        exact ih hl (keepSmaller s d) e
      | none =>
        simp only [estimateDateRangeAux, hd2, lowerCandidates, upperCandidates,
          List.filterMap_cons]
        exact ih hl s e
    | gt l' r' =>
      cases hd2 : extractDateFromSides l' r' with
      | some d =>
        simp only [estimateDateRangeAux, hd2, lowerCandidates, upperCandidates,
          List.filterMap_cons, List.foldl_cons]
        exact ih hl (keepSmaller s d) e
      | none =>
        simp only [estimateDateRangeAux, hd2, lowerCandidates, upperCandidates,
          List.filterMap_cons]
        exact ih hl s e
    | lte l' r' =>
      cases hd2 : extractDateFromSides l' r' with
      | some d =>
        simp only [estimateDateRangeAux, hd2, lowerCandidates, upperCandidates,
          List.filterMap_cons, List.foldl_cons]
        exact ih hl s (keepLarger e d)
      | none =>
        simp only [estimateDateRangeAux, hd2, lowerCandidates, upperCandidates,
          List.filterMap_cons]
        exact ih hl s e
    | lt l' r' =>
      cases hd2 : extractDateFromSides l' r' with
      | some d =>
        simp only [estimateDateRangeAux, hd2, lowerCandidates, upperCandidates,
          List.filterMap_cons, List.foldl_cons]
        exact ih hl s (keepLarger e d)
      | none =>
        simp only [estimateDateRangeAux, hd2, lowerCandidates, upperCandidates,
          List.filterMap_cons]
        exact ih hl s e
    | column nm tb =>
      simp only [estimateDateRangeAux, lowerCandidates, upperCandidates,
        List.filterMap_cons]
      exact ih hl s e
    | lit v =>
      simp only [estimateDateRangeAux, lowerCandidates, upperCandidates,
        List.filterMap_cons]
      exact ih hl s e
    | func f args =>
      simp only [estimateDateRangeAux, lowerCandidates, upperCandidates,
        List.filterMap_cons]
      exact ih hl s e
    | and l' r' =>
      simp only [estimateDateRangeAux, lowerCandidates, upperCandidates,
        List.filterMap_cons]
      exact ih hl s e
    | or l' r' =>
      simp only [estimateDateRangeAux, lowerCandidates, upperCandidates,
        List.filterMap_cons]
      exact ih hl s e

/-- C5 counterexample: `betweenThenEqConds` contains the condition
`day = '2021-09-13'` — an `=` with a column on one side and a parseable date
on the other — yet the estimate is 365, not 1: the earlier BETWEEN
(`day BETWEEN '2021-01-01' AND '2021-12-31'`) breaks out of the scan first. -/
theorem eq_short_circuit_counterexample :
    eqWithDate (.eq (.column "day" none) (.lit "2021-09-13")) = true ∧
    SqlExpr.eq (.column "day" none) (.lit "2021-09-13") ∈ betweenThenEqConds ∧
    estimateDateRange betweenThenEqConds = some 365 ∧
    ¬ ((365 : Int) = 1) := by
  refine ⟨by decide, by decide, by decide, by decide⟩

/-- C5 (amended): an `=` condition with a column on one side and a parseable
date on the other makes the whole estimation return exactly 1 day,
regardless of the accumulated bounds, of every condition after it, and of
every earlier condition that is not a BETWEEN with two parseable bounds
(such a BETWEEN short-circuits first with its own span). -/
theorem eq_estimates_one_day (l1 l2 : List SqlExpr) (a b : SqlExpr)
    (hd : (extractDateFromSides a b).isSome = true)
    (h1 : ∀ c ∈ l1, betweenBothParse c = false) :
    estimateDateRange (l1 ++ SqlExpr.eq a b :: l2) = some 1 :=
  estimateDateRangeAux_eq_one l2 a b hd l1 h1 none none

/-- Witness for C5 (amended): `day >= '2021-01-01' AND day = '2021-09-13'
AND day <= '2021-12-31'` estimates to 1 day despite the wider bounds. -/
theorem eq_estimates_one_day_witness :
    estimateDateRange
      [.gte (.column "day" none) (.lit "2021-01-01"),
       .eq (.column "day" none) (.lit "2021-09-13"),
       .lte (.column "day" none) (.lit "2021-12-31")] = some 1 :=
  eq_estimates_one_day [.gte (.column "day" none) (.lit "2021-01-01")]
    [.lte (.column "day" none) (.lit "2021-12-31")]
    (.column "day" none) (.lit "2021-09-13") (by decide) (by decide)

/-- C6 counterexample: on
`day >= '2021-01-01' AND day >= '2021-06-01' AND day <= '2021-06-10'`, the
tightest-bound estimator the spec describes (max of lower candidates, min of
upper candidates) yields 10 days, but `_estimate_date_range` yields 161: the
code keeps the *loosest* lower bound (the minimum of the candidates). -/
theorem tightest_bound_counterexample :
    estimateDateRange twoLowerBoundConds = some 161 ∧
    estimateDateRangeTightest twoLowerBoundConds = some 10 ∧
    ¬ ((161 : Int) = 10) := by
  refine ⟨by decide, by decide, by decide⟩

/-- C6 (amended): operand sides of a comparison are treated symmetrically
when identifying the non-column date operand; and across a condition set
that never short-circuits, the estimator accumulates the *loosest* bounds:
the minimum of the lower-bound candidates and the maximum of the upper-bound
candidates (not the tightest, as the spec states). -/
theorem estimate_symmetry_and_accumulation :
    (∀ l r : SqlExpr, extractDateFromSides l r = extractDateFromSides r l)
    ∧ (∀ conds : List SqlExpr,
        (∀ c ∈ conds, betweenBothParse c = false ∧ eqWithDate c = false) →
        estimateDateRange conds =
          combineBounds (lowerCandidates conds).min? (upperCandidates conds).max?) := by
  constructor
  · intro l r
    cases hl : l.hasColumn <;> cases hr : r.hasColumn <;>
      simp [extractDateFromSides, hl, hr]
  · intro conds h
    rw [estimateDateRange, estimateDateRangeAux_accumulates conds h none none,
      foldl_keepSmaller_none, foldl_keepLarger_none]

/-- Witness for C6 (amended): the accumulation result on
`twoLowerBoundConds` equals the span from the *minimum* lower candidate. -/
theorem estimate_symmetry_and_accumulation_witness :
    extractDateFromSides (.column "day" none) (.lit "2021-09-13") =
      extractDateFromSides (.lit "2021-09-13") (.column "day" none) ∧
    estimateDateRange twoLowerBoundConds =
      combineBounds (lowerCandidates twoLowerBoundConds).min?
        (upperCandidates twoLowerBoundConds).max? :=
  ⟨estimate_symmetry_and_accumulation.1 (.column "day" none) (.lit "2021-09-13"),
   estimate_symmetry_and_accumulation.2 twoLowerBoundConds (by decide)⟩

/-- C7: a BETWEEN whose low and high literals both parse as dates estimates
to `(high - low).days + 1`, inclusive of both endpoints, short-circuiting the
scan: conditions after it are ignored, and earlier conditions do not change
the result unless they short-circuit first.  In particular
`day BETWEEN '2021-09-13' AND '2021-09-26'` estimates to 14 days. -/
theorem between_inclusive_estimate :
    (∀ (l1 l2 : List SqlExpr) (t lo hi : SqlExpr) (dl dh : Nat),
      extractDateValue (some lo) = some dl →
      extractDateValue (some hi) = some dh →
      (∀ c ∈ l1, betweenBothParse c = false ∧ eqWithDate c = false) →
      estimateDateRange (l1 ++ SqlExpr.between t lo hi :: l2) =
        some ((dh : Int) - (dl : Int) + 1))
    ∧ estimateDateRange
        [.between (.column "day" none) (.lit "2021-09-13") (.lit "2021-09-26")]
        = some 14 := by
  constructor
  · intro l1 l2 t lo hi dl dh hlo hhi h1
    exact estimateDateRangeAux_between l2 t lo hi dl dh hlo hhi l1 h1 none none
  · decide

/-- Witness for C7: the first parseable BETWEEN wins — a second, much wider
BETWEEN after it is ignored. -/
theorem between_inclusive_estimate_witness :
    estimateDateRange
      [.between (.column "day" none) (.lit "2021-09-13") (.lit "2021-09-26"),
       .between (.column "day" none) (.lit "2020-01-01") (.lit "2021-12-31")]
      = some 14 :=
  (between_inclusive_estimate.1 []
    [.between (.column "day" none) (.lit "2020-01-01") (.lit "2021-12-31")]
    (.column "day" none) (.lit "2021-09-13") (.lit "2021-09-26")
    738351 738364 (by decide) (by decide) (by simp)).trans (by decide)

theorem lookupConfig_append_single (acc : List (String × PartitionConfig))
    (k k' : String) (p : PartitionConfig)
    (h1 : lookupConfig acc k' = none) (h2 : k' ≠ k) :
    lookupConfig (acc ++ [(k, p)]) k' = none := by
  unfold lookupConfig at h1 ⊢
  have hfind : acc.find? (fun q => q.1 == k') = none := by
    cases hf : acc.find? (fun q => q.1 == k') with
    | none => rfl
    | some q => rw [hf] at h1; simp at h1
  rw [List.find?_append, hfind]
  have hkk : (k == k') = false := by
    simp only [beq_eq_false_iff_ne]
    exact Ne.symm h2
  simp [List.find?, hkk]

/-- With pairwise-distinct short names, the construction loop inserts every
rule and succeeds with the whole mapping. -/
theorem buildPartitionConfigs_ok (rules : List PartitionConfig) :
    ∀ acc : List (String × PartitionConfig),
    (∀ r ∈ rules, lookupConfig acc (lowerStr r.shortTableName) = none) →
    (rules.map fun r => lowerStr r.shortTableName).Nodup →
    buildPartitionConfigs acc rules =
      .ok (acc ++ rules.map fun r => (lowerStr r.shortTableName, r)) := by
  induction rules with
  | nil => intro acc _ _; simp [buildPartitionConfigs]
  | cons p rest ih =>
    intro acc hacc hnd
    have hkey : lookupConfig acc (lowerStr p.shortTableName) = none :=
      hacc p (List.mem_cons_self p rest)
    obtain ⟨hnotin, hnd'⟩ :
        (∀ x ∈ rest, ¬ lowerStr x.shortTableName = lowerStr p.shortTableName) ∧
          (rest.map fun r => lowerStr r.shortTableName).Nodup := by
      simpa using hnd
    simp only [buildPartitionConfigs, hkey]
    rw [ih (acc ++ [(lowerStr p.shortTableName, p)]) ?ha hnd']
    · simp
    case ha =>
      intro r hr
      exact lookupConfig_append_single acc _ _ p
        (hacc r (List.mem_cons_of_mem p hr)) (hnotin r hr)

/-- If the short names of the remaining rules collide with each other or with
the (distinct) keys already inserted, the construction loop fails, and the
error message is the duplicate message for two rules sharing a short name. -/
theorem buildPartitionConfigs_error (rules : List PartitionConfig) :
    ∀ acc : List (String × PartitionConfig),
    (∀ q ∈ acc, q.1 = lowerStr q.2.shortTableName) →
    (acc.map Prod.fst).Nodup →
    ¬ (acc.map Prod.fst ++ rules.map fun r => lowerStr r.shortTableName).Nodup →
    ∃ r1 r2, (r1 ∈ acc.map Prod.snd ∨ r1 ∈ rules) ∧ r2 ∈ rules ∧
      lowerStr r1.shortTableName = lowerStr r2.shortTableName ∧
      buildPartitionConfigs acc rules =
        .error (duplicateConfigMessage (lowerStr r2.shortTableName)
          r1.tableName r2.tableName) := by
  induction rules with
  | nil =>
    intro acc hgood hnd hdup
    exact absurd (by simpa using hnd) hdup
  | cons p rest ih =>
    intro acc hgood hnd hdup
    cases hk : lookupConfig acc (lowerStr p.shortTableName) with
    | some existing =>
      unfold lookupConfig at hk
      cases hf : acc.find? (fun q => q.1 == lowerStr p.shortTableName) with
      | none => rw [hf] at hk; simp at hk
      | some q =>
        rw [hf] at hk
        have hq2 : q.2 = existing := by simpa using hk
        have hqmem : q ∈ acc := List.mem_of_find?_eq_some hf
        have hq1 : q.1 = lowerStr p.shortTableName := by
          have := List.find?_some hf
          simpa using this
        refine ⟨existing, p,
          Or.inl (hq2 ▸ List.mem_map_of_mem Prod.snd hqmem),
          List.mem_cons_self p rest, ?_, ?_⟩
        · rw [← hq2, ← hgood q hqmem, hq1]
        · have hlk : lookupConfig acc (lowerStr p.shortTableName) = some existing := by
            unfold lookupConfig
            rw [hf]
            simpa using hk
          simp only [buildPartitionConfigs, hlk]
    | none =>
      have hfind_none : acc.find? (fun q => q.1 == lowerStr p.shortTableName) = none := by
        cases hf : acc.find? (fun q => q.1 == lowerStr p.shortTableName) with
        | none => rfl
        | some q' =>
          exfalso
          have hsome : lookupConfig acc (lowerStr p.shortTableName) = some q'.2 := by
            unfold lookupConfig
            rw [hf]
            rfl
          rw [hk] at hsome
          exact Option.noConfusion hsome
      have hnotin : lowerStr p.shortTableName ∉ acc.map Prod.fst := by
        intro hmem
        obtain ⟨q, hqmem, hq1⟩ := List.mem_map.mp hmem
        have hq := List.find?_eq_none.mp hfind_none q hqmem
        simp [hq1] at hq
      have hgood' : ∀ q ∈ acc ++ [(lowerStr p.shortTableName, p)],
          q.1 = lowerStr q.2.shortTableName := by
        intro q hq
        rcases List.mem_append.mp hq with h | h
        · exact hgood q h
        · simp at h
          rw [h]
      have hnd'' : ((acc ++ [(lowerStr p.shortTableName, p)]).map Prod.fst).Nodup := by
        rw [List.map_append]
        simp only [List.map_cons, List.map_nil]
        exact List.Nodup.append hnd (List.nodup_singleton _)
          (by intro a ha hb; simp at hb; rw [hb] at ha; exact hnotin ha)
      have hdup' : ¬ ((acc ++ [(lowerStr p.shortTableName, p)]).map Prod.fst ++
          rest.map fun r => lowerStr r.shortTableName).Nodup := by
        rw [List.map_append]
        simp only [List.map_cons, List.map_nil]
        rw [List.append_assoc]
        simpa using hdup
      obtain ⟨r1, r2, hr1, hr2, hkeyeq, hbuild⟩ := ih
        (acc ++ [(lowerStr p.shortTableName, p)]) hgood' hnd'' hdup'
      refine ⟨r1, r2, ?_, List.mem_cons_of_mem p hr2, hkeyeq, ?_⟩
      · rcases hr1 with h | h
        · rw [List.map_append] at h
          rcases List.mem_append.mp h with h' | h'
          · exact Or.inl h'
          · simp at h'
            exact Or.inr (h' ▸ List.mem_cons_self p rest)
        · exact Or.inr (List.mem_cons_of_mem p h)
      · simp only [buildPartitionConfigs, hk]
        exact hbuild

/-- C9: constructing a checker succeeds and builds the short-name-to-rule
mapping exactly when the lower-cased short names of the rules are pairwise
distinct; with a collision it fails with the configuration error whose
message (`duplicateConfigMessage`) names the colliding short name and both
qualified table names. -/
theorem duplicate_short_name_configuration :
    (∀ rules : List PartitionConfig,
      (rules.map fun r => lowerStr r.shortTableName).Nodup →
      mkPartitionChecker rules =
        .ok (rules.map fun r => (lowerStr r.shortTableName, r)))
    ∧ (∀ rules : List PartitionConfig,
      ¬ (rules.map fun r => lowerStr r.shortTableName).Nodup →
      ∃ r1 r2, r1 ∈ rules ∧ r2 ∈ rules ∧
        lowerStr r1.shortTableName = lowerStr r2.shortTableName ∧
        mkPartitionChecker rules =
          .error (duplicateConfigMessage (lowerStr r2.shortTableName)
            r1.tableName r2.tableName)) := by
  constructor
  · intro rules hnd
    have h := buildPartitionConfigs_ok rules [] (fun r _ => rfl) hnd
    simpa [mkPartitionChecker] using h
  · intro rules hdup
    obtain ⟨r1, r2, hr1, hr2, hkeyeq, hbuild⟩ :=
      buildPartitionConfigs_error rules [] (by simp) (by simp) (by simpa using hdup)
    refine ⟨r1, r2, ?_, hr2, hkeyeq, hbuild⟩
    rcases hr1 with h | h
    · simp at h
    · exact h

/-- Witness for C9: `fact.sales` and `stage.sales` collide on `sales` and
fail; two distinct short names succeed with the built mapping. -/
theorem duplicate_short_name_configuration_witness :
    (∃ r1 r2, r1 ∈ collidingRules ∧ r2 ∈ collidingRules ∧
      lowerStr r1.shortTableName = lowerStr r2.shortTableName ∧
      mkPartitionChecker collidingRules =
        .error (duplicateConfigMessage (lowerStr r2.shortTableName)
          r1.tableName r2.tableName)) ∧
    mkPartitionChecker distinctRules =
      .ok (distinctRules.map fun r => (lowerStr r.shortTableName, r)) :=
  ⟨duplicate_short_name_configuration.2 collidingRules (by decide),
   duplicate_short_name_configuration.1 distinctRules (by decide)⟩

end SqlRanger
